import Mathlib

/-!
Verification of `ai-agents-sandbox/travel-recommender-agent.py`:
a shallow embedding of the travel-recommender agent script — the two
capability plugins (`BookTravelPlugin`, `DestinationPlugin`) and the
streaming-aggregation turn loop of `main` — together with theorems
settling the specification's claims about them.
-/

namespace TravelAgent

/-! ## Capabilities -/

/-- Embedding of `BookTravelPlugin.book_flight` (travel-recommender-agent.py,
lines 38-43).  The Python body is the f-string
`f"Flight booked to {location} on {date}."`, translated here as explicit
string concatenation of the three literal template pieces with the two
arguments spliced in verbatim. -/
def book_flight (date : String) (location : String) : String :=
  "Flight booked to " ++ location ++ " on " ++ date ++ "."

/-- State of `DestinationPlugin` (travel-recommender-agent.py, lines 46-67):
the vacation-destination list and the last suggested destination
(`self.latest_destination`, initially `None`). -/
structure DestinationPlugin where
  destinations : List String
  latest_destination : Option String
  deriving DecidableEq, Repr

/-- The initial plugin state built by `DestinationPlugin.__init__`
(lines 50-67): the ten hard-coded destinations and no prior suggestion. -/
def DestinationPlugin.init : DestinationPlugin :=
  { destinations :=
      [ "Barcelona, Spain", "Paris, France", "Berlin, Germany", "Tokyo, Japan",
        "Sydney, Australia", "New York, USA", "Cairo, Egypt",
        "Cape Town, South Africa", "Rio de Janeiro, Brazil", "Bali, Indonesia" ],
    latest_destination := none }

/-- The only failure mode of `get_random_destination`: `random.choice` on an
empty sequence.  The specification's error taxonomy names this failure
`NoAvailableDestinationError`. -/
inductive DestError : Type where
  | NoAvailableDestinationError : DestError
  deriving DecidableEq, Repr

/-- The `available_destinations` list computed by the first half of
`get_random_destination` (lines 76-80): a copy of `self.destinations` with
`self.latest_destination` removed when present.  Python's `list.remove`
deletes the first occurrence only, which is `List.erase`; the `in` test
against an unset (`None`) latest destination is always false. -/
def available_of (s : DestinationPlugin) : List String :=
  match s.latest_destination with
  | none => s.destinations
  | some d =>
      if d ∈ s.destinations then s.destinations.erase d else s.destinations

/-- Embedding of `DestinationPlugin.get_random_destination` (lines 72-90).
The nondeterminism of `random.choice` is resolved by an oracle argument
`choice`: the picked element is `available[choice % len(available)]`, which
ranges over exactly the indices `random.choice` can draw.  On an empty
`available` list `random.choice` fails (`DestError`); otherwise the chosen
destination is returned and recorded as `latest_destination`. -/
def get_random_destination (s : DestinationPlugin) (choice : Nat) :
    Except DestError (String × DestinationPlugin) :=
  let available_destinations := available_of s
  if h : available_destinations.length = 0 then
    .error .NoAvailableDestinationError
  else
    let next_destination :=
      available_destinations.get
        ⟨choice % available_destinations.length,
         Nat.mod_lt _ (Nat.pos_of_ne_zero h)⟩
    .ok (next_destination, { s with latest_destination := some next_destination })

/-- Outputs of a sequence of successive `get_random_destination` invocations
on one plugin state, one oracle value per invocation; a failing invocation
ends the run. -/
def runCalls (s : DestinationPlugin) : List Nat → List String
  | [] => []
  | choice :: rest =>
      match get_random_destination s choice with
      | .error _ => []
      | .ok (v, s') => v :: runCalls s' rest

/-! ## Streamed content and the turn aggregation loop of `main` -/

/-- One entry of a streamed message's `items` list (lines 181-189 inspect
them with `isinstance`): a function-call request (`FunctionCallContent`
with `function_name` and `arguments`), a function result
(`FunctionResultContent` with `function_name` and `result`), or any other
item kind (e.g. streamed text), which the loop body ignores. -/
inductive ContentItem : Type where
  | FunctionCallContent (function_name : String) (arguments : String)
  | FunctionResultContent (function_name : String) (result : String)
  | OtherContent
  deriving DecidableEq, Repr

/-- One unit yielded by `agent.invoke_stream(chat_history)` (a streaming
chat message content): its optional `name` attribute (the Python value may
be a string or `None`), its text `content`, and its `items`. -/
structure StreamedContent where
  name : Option String
  content : String
  items : List ContentItem
  deriving DecidableEq, Repr

/-- Matches the `isinstance(item, (FunctionCallContent, FunctionResultContent))`
test of lines 196-199. -/
def ContentItem.isCallRelated : ContentItem → Bool
  | .FunctionCallContent _ _ => true
  | .FunctionResultContent _ _ => true
  | .OtherContent => false

/-- Python truthiness of `content.content.strip()`: stripping whitespace
leaves a non-empty string, i.e. some character is not whitespace. -/
def stripTruthy (s : String) : Bool :=
  s.data.any (fun ch => !ch.isWhitespace)

/-- The text-inclusion guard of lines 192-200 for one unit: the unit's
`content` is non-empty (`content.content`), not whitespace-only
(`content.content.strip()`), and no item of the unit is call-related
(`not any(isinstance(item, (FunctionCallContent, FunctionResultContent)) ...)`). -/
def textGuard (c : StreamedContent) : Bool :=
  c.content != "" && stripTruthy c.content
    && !(c.items.any ContentItem.isCallRelated)

/-- The per-turn accumulator variables of `main` (lines 170-173):
`agent_name`, `full_response`, `function_calls` and the `function_results`
dict (modelled as a map from capability name to its stored value). -/
structure TurnAgg where
  agent_name : Option String
  full_response : String
  function_calls : List String
  function_results : String → Option String

/-- The fresh accumulator at the start of each turn (lines 170-173):
`agent_name = None`, `full_response = ""`, `function_calls = []`,
`function_results = {}`. -/
def TurnAgg.init : TurnAgg :=
  { agent_name := none, full_response := "",
    function_calls := [], function_results := fun _ => none }

/-- Python truthiness of the `agent_name` variable: `not agent_name` is
true for `None` and for the empty string. -/
def pyFalsy : Option String → Bool
  | none => true
  | some s => s == ""

/-- The `for item in content.items` body (lines 181-189): a
`FunctionCallContent` appends `"Calling: <name>(<arguments>)"` to
`function_calls`; a `FunctionResultContent` appends `"Result: <value>"`
and stores `function_results[name] = value`; other items are ignored. -/
def processItem (acc : TurnAgg) : ContentItem → TurnAgg
  | .FunctionCallContent name args =>
      { acc with function_calls :=
          acc.function_calls ++ ["Calling: " ++ name ++ "(" ++ args ++ ")"] }
  | .FunctionResultContent name res =>
      { acc with
          function_calls := acc.function_calls ++ ["Result: " ++ res],
          function_results :=
            fun k => if k = name then some res else acc.function_results k }
  | .OtherContent => acc

/-- The body of `async for content in agent.invoke_stream(...)`
(lines 176-201): set `agent_name` from `content.name` while it is still
falsy; fold `processItem` over `content.items`; then append
`content.content` to `full_response` when the text is non-empty, not
whitespace-only, and no item of this unit is call-related. -/
def processContent (acc : TurnAgg) (content : StreamedContent) : TurnAgg :=
  let acc :=
    if pyFalsy acc.agent_name then { acc with agent_name := content.name }
    else acc
  let acc := content.items.foldl processItem acc
  if textGuard content then
    { acc with full_response := acc.full_response ++ content.content }
  else acc

/-- Aggregation of one turn's whole fragment stream: the loop of
lines 176-201 run to completion from the fresh accumulator. -/
def aggregate (contents : List StreamedContent) : TurnAgg :=
  contents.foldl processContent TurnAgg.init

/-! ## Observation functions on fragment sequences

These definitions read off, from a fragment sequence, the quantities the
specification talks about: the CallRequest and CallResult items in arrival
order, the log lines the loop is expected to produce, the concatenated
text deltas, and a last-write-wins lookup that mirrors the dict update
`function_results[name] = value`. -/

/-- The `(function_name, arguments)` pairs of the `FunctionCallContent`
items of one unit's item list, in order. -/
def itemCalls : List ContentItem → List (String × String)
  | [] => []
  | .FunctionCallContent n a :: rest => (n, a) :: itemCalls rest
  | .FunctionResultContent _ _ :: rest => itemCalls rest
  | .OtherContent :: rest => itemCalls rest

/-- All CallRequest pairs of a fragment sequence, in arrival order. -/
def turnCalls : List StreamedContent → List (String × String)
  | [] => []
  | c :: rest => itemCalls c.items ++ turnCalls rest

/-- The `(function_name, result)` pairs of the `FunctionResultContent`
items of one unit's item list, in order. -/
def itemResults : List ContentItem → List (String × String)
  | [] => []
  | .FunctionCallContent _ _ :: rest => itemResults rest
  | .FunctionResultContent n r :: rest => (n, r) :: itemResults rest
  | .OtherContent :: rest => itemResults rest

/-- All CallResult pairs of a fragment sequence, in arrival order. -/
def turnResults : List StreamedContent → List (String × String)
  | [] => []
  | c :: rest => itemResults c.items ++ turnResults rest

/-- The call-log line for a CallRequest pair. -/
def fmtCall (p : String × String) : String :=
  "Calling: " ++ p.1 ++ "(" ++ p.2 ++ ")"

/-- The log lines produced by one unit's item list, in order. -/
def itemLogLines : List ContentItem → List String
  | [] => []
  | .FunctionCallContent n a :: rest => fmtCall (n, a) :: itemLogLines rest
  | .FunctionResultContent _ r :: rest => ("Result: " ++ r) :: itemLogLines rest
  | .OtherContent :: rest => itemLogLines rest

/-- The log lines produced by a fragment sequence, in order. -/
def turnLogLines : List StreamedContent → List String
  | [] => []
  | c :: rest => itemLogLines c.items ++ turnLogLines rest

/-- Whether a log line is of the form `"Calling: <name>(<arguments>)"`:
it begins with the nine characters `"Calling: "`. -/
def isCallingLine (s : String) : Bool :=
  decide (s.data.take 9 = "Calling: ".data)

/-- Last-write-wins lookup in an ordered list of `(name, value)` entries:
the value of the last entry for `n`, if any.  This is the dictionary
semantics the specification ascribes to `callResults`. -/
def lookupLast (entries : List (String × String)) (n : String) : Option String :=
  match entries with
  | [] => none
  | (k, v) :: rest =>
      match lookupLast rest n with
      | some w => some w
      | none => if n = k then some v else none

/-- Concatenation of every unit's text delta, in arrival order (what the
claim under test expects `fullText` to equal for call-free sequences). -/
def textDeltaConcat : List StreamedContent → String
  | [] => ""
  | c :: rest => c.content ++ textDeltaConcat rest

/-- Concatenation, in arrival order, of the text deltas that are non-empty
and not whitespace-only; other deltas contribute nothing. -/
def keptTextConcat : List StreamedContent → String
  | [] => ""
  | c :: rest =>
      (if c.content != "" && stripTruthy c.content then c.content else "") ++
        keptTextConcat rest

/-- Concatenation of the text deltas of the units passing `textGuard`. -/
def guardedTextConcat : List StreamedContent → String
  | [] => ""
  | c :: rest =>
      (if textGuard c then c.content else "") ++ guardedTextConcat rest

/-! ## Conversation state and the driver loop -/

/-- The role tag of one chat-history message. -/
inductive Role : Type where
  | user
  | assistant
  | system
  deriving DecidableEq, Repr

/-- One chat-history message: role plus textual content. -/
structure Turn where
  role : Role
  content : String
  deriving DecidableEq, Repr

/-- One driver turn of `main` (lines 160-214) for a single user input: the
driver appends the user message to the chat history
(`chat_history.add_user_message(user_input)`, line 163), obtains the
fragment stream from the backend (`agent.invoke_stream(chat_history)`,
modelled as the function `stream` of the history), aggregates it, and
prints the result.  These are the only chat-history operations the driver
itself performs. -/
def processUserInput (history : List Turn) (user_input : String)
    (stream : List Turn → List StreamedContent) : List Turn × TurnAgg :=
  let history := history ++ [{ role := Role.user, content := user_input }]
  let agg := aggregate (stream history)
  (history, agg)

/-- The whole driver loop of `main`: fold `processUserInput` over the user
inputs, threading the chat history; returns the final history and the
per-turn aggregation results in order. -/
def driverLoop (stream : List Turn → List StreamedContent) :
    List Turn → List String → List Turn × List TurnAgg
  | history, [] => (history, [])
  | history, user_input :: rest =>
      let r := processUserInput history user_input stream
      let rec_rest := driverLoop stream r.1 rest
      (rec_rest.1, r.2 :: rec_rest.2)

/-! ## Destination capability: basic lemmas -/

theorem mem_destinations_of_mem_available {s : DestinationPlugin} {v : String}
    (h : v ∈ available_of s) : v ∈ s.destinations := by
  cases hl : s.latest_destination with
  | none => simpa only [available_of, hl] using h
  | some d =>
      simp only [available_of, hl] at h
      by_cases hd : d ∈ s.destinations
      · rw [if_pos hd] at h; exact List.mem_of_mem_erase h
      · rw [if_neg hd] at h; exact h

theorem get_random_destination_ok {s : DestinationPlugin} {i : Nat} {v : String}
    {s' : DestinationPlugin} (h : get_random_destination s i = .ok (v, s')) :
    v ∈ available_of s ∧
      s' = { destinations := s.destinations, latest_destination := some v } := by
  unfold get_random_destination at h
  by_cases h0 : (available_of s).length = 0
  · simp [h0] at h
  · simp only [h0, dite_false] at h
    rw [Except.ok.injEq, Prod.mk.injEq] at h
    obtain ⟨hv, hs⟩ := h
    subst hv
    exact ⟨List.get_mem _ _ _, hs.symm⟩

theorem get_random_destination_error {s : DestinationPlugin} (i : Nat)
    (h : available_of s = []) :
    get_random_destination s i = .error DestError.NoAvailableDestinationError := by
  unfold get_random_destination
  simp [h]

theorem destinations_short_of_available_nil {s : DestinationPlugin}
    (h : available_of s = []) : s.destinations.length ≤ 1 := by
  cases hl : s.latest_destination with
  | none =>
      simp only [available_of, hl] at h
      simp [h]
  | some d =>
      simp only [available_of, hl] at h
      by_cases hd : d ∈ s.destinations
      · rw [if_pos hd] at h
        have hlen := List.length_erase_of_mem hd
        rw [h] at hlen
        simp only [List.length_nil] at hlen
        omega
      · rw [if_neg hd] at h; simp [h]

theorem available_length_ne_zero {s : DestinationPlugin}
    (h2 : 2 ≤ s.destinations.length) : (available_of s).length ≠ 0 := by
  intro h0
  have h1 := destinations_short_of_available_nil (List.length_eq_zero.mp h0)
  omega

theorem get_random_destination_isOk {s : DestinationPlugin} (i : Nat)
    (h : (available_of s).length ≠ 0) :
    ∃ v s', get_random_destination s i = .ok (v, s') := by
  unfold get_random_destination
  simp [h]

/-- Two successive invocations never agree, given duplicate-free
destinations: the second draw is made from a list from which the first
draw's value has been erased. -/
theorem succ_call_ne {s : DestinationPlugin} (hnd : s.destinations.Nodup)
    {i j : Nat} {v w : String} {s' s'' : DestinationPlugin}
    (h1 : get_random_destination s i = .ok (v, s'))
    (h2 : get_random_destination s' j = .ok (w, s'')) : w ≠ v := by
  obtain ⟨hv, hs⟩ := get_random_destination_ok h1
  obtain ⟨hw, _⟩ := get_random_destination_ok h2
  have hvd : v ∈ s.destinations := mem_destinations_of_mem_available hv
  subst hs
  simp only [available_of, if_pos hvd] at hw
  exact ((List.Nodup.mem_erase_iff hnd).mp hw).1

theorem runCalls_head {s : DestinationPlugin} {cs : List Nat} {b : String}
    (h : (runCalls s cs).head? = some b) :
    ∃ j s'', get_random_destination s j = .ok (b, s'') := by
  cases cs with
  | nil => simp [runCalls] at h
  | cons j rest =>
      unfold runCalls at h
      cases hg : get_random_destination s j with
      | error e => rw [hg] at h; simp at h
      | ok p =>
          rw [hg] at h
          obtain ⟨v, s''⟩ := p
          simp only [List.head?_cons, Option.some.injEq] at h
          exact ⟨j, s'', h ▸ hg⟩

theorem runCalls_chain {s : DestinationPlugin} (hnd : s.destinations.Nodup)
    (h2 : 2 ≤ s.destinations.length) (choices : List Nat) :
    (runCalls s choices).Chain' (fun a b => a ≠ b) := by
  induction choices generalizing s with
  | nil => simp [runCalls]
  | cons i rest ih =>
      unfold runCalls
      cases hg : get_random_destination s i with
      | error e => simp
      | ok p =>
          obtain ⟨v, s'⟩ := p
          obtain ⟨hv, hs⟩ := get_random_destination_ok hg
          have hdest : s'.destinations = s.destinations := by rw [hs]
          rw [List.chain'_cons']
          constructor
          · intro b hb
            obtain ⟨j, s'', hg2⟩ := runCalls_head hb
            exact (succ_call_ne hnd hg hg2).symm
          · exact ih (hdest ▸ hnd) (hdest ▸ h2)

/-! ## Claims about the capabilities -/

/-- Claim C2: whenever the available list (destinations minus the last
suggested value) is empty, `get_random_destination` fails with
`NoAvailableDestinationError`; emptiness is possible only when the
destination list has at most one element; and with a destination set of
size 1, the first invocation succeeds and the second fails with
`NoAvailableDestinationError`. -/
theorem empty_available_fails :
    (∀ (s : DestinationPlugin) (i : Nat), available_of s = [] →
        get_random_destination s i = .error DestError.NoAvailableDestinationError) ∧
    (∀ s : DestinationPlugin, available_of s = [] → s.destinations.length ≤ 1) ∧
    (∀ (d : String) (i j : Nat),
        get_random_destination ⟨[d], none⟩ i =
          .ok (d, ⟨[d], some d⟩) ∧
        get_random_destination ⟨[d], some d⟩ j =
          .error DestError.NoAvailableDestinationError) := by
  refine ⟨fun s i h => get_random_destination_error i h,
          fun s h => destinations_short_of_available_nil h, fun d i j => ⟨?_, ?_⟩⟩
  · simp [get_random_destination, available_of, Nat.mod_one]
  · apply get_random_destination_error
    simp [available_of]

theorem empty_available_fails_witness :
    get_random_destination ⟨[], none⟩ 0 =
        .error DestError.NoAvailableDestinationError ∧
      (⟨[], none⟩ : DestinationPlugin).destinations.length ≤ 1 ∧
      get_random_destination ⟨["Tokyo, Japan"], none⟩ 3 =
        .ok ("Tokyo, Japan", ⟨["Tokyo, Japan"], some "Tokyo, Japan"⟩) ∧
      get_random_destination ⟨["Tokyo, Japan"], some "Tokyo, Japan"⟩ 4 =
        .error DestError.NoAvailableDestinationError :=
  ⟨empty_available_fails.1 ⟨[], none⟩ 0 rfl,
   empty_available_fails.2.1 ⟨[], none⟩ rfl,
   (empty_available_fails.2.2 "Tokyo, Japan" 3 4).1,
   (empty_available_fails.2.2 "Tokyo, Japan" 3 4).2⟩

/-- Claim C3: on a state whose destination set (a duplicate-free list) has
at least two elements, any sequence of successive invocations yields
outputs in which no two consecutive values are equal, whichever random
choices are drawn. -/
theorem no_consecutive_repeats :
    ∀ (s : DestinationPlugin), s.destinations.Nodup →
      2 ≤ s.destinations.length →
      ∀ choices : List Nat, (runCalls s choices).Chain' (fun a b => a ≠ b) :=
  fun _ hnd h2 choices => runCalls_chain hnd h2 choices

theorem no_consecutive_repeats_witness :
    (runCalls ⟨["Paris, France", "Tokyo, Japan"], none⟩ [0, 0, 1, 0]).Chain'
      (fun a b => a ≠ b) :=
  no_consecutive_repeats ⟨["Paris, France", "Tokyo, Japan"], none⟩
    (by decide) (by decide) [0, 0, 1, 0]

/-- Claim C9: a normally-returning invocation of `get_random_destination`
leaves the `destinations` list unchanged; the post-state differs from the
pre-state only in `latest_destination`. -/
theorem destinations_unchanged :
    ∀ (s : DestinationPlugin) (i : Nat) (v : String) (s' : DestinationPlugin),
      get_random_destination s i = .ok (v, s') →
      s'.destinations = s.destinations ∧
        s' = { destinations := s.destinations, latest_destination := some v } := by
  intro s i v s' h
  obtain ⟨_, hs⟩ := get_random_destination_ok h
  exact ⟨by rw [hs], hs⟩

theorem destinations_unchanged_witness :
    DestinationPlugin.destinations ⟨["A", "B"], some "A"⟩ = ["A", "B"] ∧
      (⟨["A", "B"], some "A"⟩ : DestinationPlugin) =
        { destinations := ["A", "B"], latest_destination := some "A" } :=
  destinations_unchanged ⟨["A", "B"], none⟩ 0 "A" ⟨["A", "B"], some "A"⟩ rfl

/-- Claim C10: after a normally-returning invocation, `latest_destination`
equals the value just returned, and that value is a member of the
`destinations` list; as this holds for every successful invocation from
any state, it is established by the first one and preserved by each
subsequent one. -/
theorem latest_matches_return :
    ∀ (s : DestinationPlugin) (i : Nat) (v : String) (s' : DestinationPlugin),
      get_random_destination s i = .ok (v, s') →
      s'.latest_destination = some v ∧ v ∈ s'.destinations := by
  intro s i v s' h
  obtain ⟨hv, hs⟩ := get_random_destination_ok h
  subst hs
  refine ⟨rfl, ?_⟩
  show v ∈ s.destinations
  exact mem_destinations_of_mem_available hv

theorem latest_matches_return_witness :
    DestinationPlugin.latest_destination ⟨["A", "B"], some "B"⟩ = some "B" ∧
      "B" ∈ DestinationPlugin.destinations ⟨["A", "B"], some "B"⟩ :=
  latest_matches_return ⟨["A", "B"], none⟩ 1 "B" ⟨["A", "B"], some "B"⟩ rfl

/-- Claim C7: `book_flight` returns exactly the template
`"Flight booked to {location} on {date}."` with the arguments spliced in
verbatim, for any non-empty date and location; in particular on
`("2024-05-10", "Paris, France")` it returns exactly
`"Flight booked to Paris, France on 2024-05-10."`.  The embedding of
`book_flight` as a pure Lean function reflects that the source has no
effect besides its return value. -/
theorem book_flight_spec :
    (∀ date location : String, date ≠ "" → location ≠ "" →
        book_flight date location =
          "Flight booked to " ++ location ++ " on " ++ date ++ ".") ∧
    book_flight "2024-05-10" "Paris, France" =
      "Flight booked to Paris, France on 2024-05-10." :=
  ⟨fun _ _ _ _ => rfl, by decide⟩

theorem book_flight_spec_witness :
    book_flight "2024-05-10" "Paris, France" =
      "Flight booked to " ++ "Paris, France" ++ " on " ++ "2024-05-10" ++ "." :=
  book_flight_spec.1 "2024-05-10" "Paris, France" (by decide) (by decide)

/-! ## Aggregation loop: fold lemmas -/

theorem foldl_processItem_function_calls (items : List ContentItem) (acc : TurnAgg) :
    (items.foldl processItem acc).function_calls =
      acc.function_calls ++ itemLogLines items := by
  induction items generalizing acc with
  | nil => simp [itemLogLines]
  | cons it rest ih =>
      cases it <;>
        simp [processItem, itemLogLines, ih, fmtCall, List.append_assoc]

theorem foldl_processItem_agent_name (items : List ContentItem) (acc : TurnAgg) :
    (items.foldl processItem acc).agent_name = acc.agent_name := by
  induction items generalizing acc with
  | nil => rfl
  | cons it rest ih => cases it <;> simp [processItem, ih]

theorem foldl_processItem_full_response (items : List ContentItem) (acc : TurnAgg) :
    (items.foldl processItem acc).full_response = acc.full_response := by
  induction items generalizing acc with
  | nil => rfl
  | cons it rest ih => cases it <;> simp [processItem, ih]

theorem foldl_processItem_function_results (items : List ContentItem)
    (acc : TurnAgg) (n : String) :
    (items.foldl processItem acc).function_results n =
      match lookupLast (itemResults items) n with
      | some w => some w
      | none => acc.function_results n := by
  induction items generalizing acc with
  | nil => simp [itemResults, lookupLast]
  | cons it rest ih =>
      cases it with
      | FunctionCallContent k a =>
          simp [processItem, itemResults, ih]
      | OtherContent =>
          simp [processItem, itemResults, ih]
      | FunctionResultContent k r =>
          simp only [List.foldl_cons, processItem, itemResults, lookupLast, ih]
          cases hlk : lookupLast (itemResults rest) n with
          | some w => simp
          | none =>
              by_cases hnk : n = k
              · simp [hnk]
              · simp [hnk]


theorem processContent_function_calls (acc : TurnAgg) (c : StreamedContent) :
    (processContent acc c).function_calls =
      acc.function_calls ++ itemLogLines c.items := by
  unfold processContent
  by_cases hn : pyFalsy acc.agent_name <;>
    by_cases hg : textGuard c <;>
      simp [hn, hg, foldl_processItem_function_calls]

theorem processContent_full_response (acc : TurnAgg) (c : StreamedContent) :
    (processContent acc c).full_response =
      acc.full_response ++ (if textGuard c then c.content else "") := by
  unfold processContent
  by_cases hn : pyFalsy acc.agent_name <;>
    by_cases hg : textGuard c <;>
      simp [hn, hg, foldl_processItem_full_response]

theorem processContent_agent_name (acc : TurnAgg) (c : StreamedContent) :
    (processContent acc c).agent_name =
      if pyFalsy acc.agent_name then c.name else acc.agent_name := by
  unfold processContent
  by_cases hn : pyFalsy acc.agent_name <;>
    by_cases hg : textGuard c <;>
      simp [hn, hg, foldl_processItem_agent_name]

theorem processContent_function_results (acc : TurnAgg) (c : StreamedContent)
    (n : String) :
    (processContent acc c).function_results n =
      match lookupLast (itemResults c.items) n with
      | some w => some w
      | none => acc.function_results n := by
  unfold processContent
  by_cases hn : pyFalsy acc.agent_name <;>
    by_cases hg : textGuard c <;>
      simp [hn, hg, foldl_processItem_function_results]

theorem lookupLast_append (l₁ l₂ : List (String × String)) (n : String) :
    lookupLast (l₁ ++ l₂) n =
      match lookupLast l₂ n with
      | some w => some w
      | none => lookupLast l₁ n := by
  induction l₁ with
  | nil => cases h2 : lookupLast l₂ n <;> simp [lookupLast, h2]
  | cons p rest ih =>
      obtain ⟨k, v⟩ := p
      simp only [List.cons_append, lookupLast, ih]
      cases h2 : lookupLast l₂ n <;> cases hr : lookupLast rest n <;>
        simp [ih, h2, hr]

theorem foldl_processContent_function_calls (contents : List StreamedContent)
    (acc : TurnAgg) :
    (contents.foldl processContent acc).function_calls =
      acc.function_calls ++ turnLogLines contents := by
  induction contents generalizing acc with
  | nil => simp [turnLogLines]
  | cons c rest ih =>
      simp [turnLogLines, ih, processContent_function_calls, List.append_assoc]

theorem foldl_processContent_full_response (contents : List StreamedContent)
    (acc : TurnAgg) :
    (contents.foldl processContent acc).full_response =
      acc.full_response ++ guardedTextConcat contents := by
  induction contents generalizing acc with
  | nil => simp [guardedTextConcat]
  | cons c rest ih =>
      simp [guardedTextConcat, ih, processContent_full_response,
        String.append_assoc]

theorem foldl_processContent_function_results (contents : List StreamedContent)
    (acc : TurnAgg) (n : String) :
    (contents.foldl processContent acc).function_results n =
      match lookupLast (turnResults contents) n with
      | some w => some w
      | none => acc.function_results n := by
  induction contents generalizing acc with
  | nil => simp [turnResults, lookupLast]
  | cons c rest ih =>
      simp only [List.foldl_cons, turnResults, ih,
        processContent_function_results, lookupLast_append]
      cases lookupLast (turnResults rest) n <;>
        cases lookupLast (itemResults c.items) n <;> simp


theorem foldl_processContent_agent_name_stable (contents : List StreamedContent)
    (acc : TurnAgg) (h : pyFalsy acc.agent_name = false) :
    (contents.foldl processContent acc).agent_name = acc.agent_name := by
  induction contents generalizing acc with
  | nil => rfl
  | cons c rest ih =>
      have hstep : (processContent acc c).agent_name = acc.agent_name := by
        rw [processContent_agent_name, h]
        simp
      rw [List.foldl_cons, ih _ (by rw [hstep, h]), hstep]

theorem foldl_processContent_agent_name_falsy (contents : List StreamedContent)
    (acc : TurnAgg) (hacc : pyFalsy acc.agent_name = true)
    (h : ∀ c ∈ contents, ∀ m, c.name = some m → m = "") :
    pyFalsy (contents.foldl processContent acc).agent_name = true := by
  induction contents generalizing acc with
  | nil => exact hacc
  | cons c rest ih =>
      rw [List.foldl_cons]
      refine ih _ ?_ fun g hg => h g (List.mem_cons_of_mem _ hg)
      rw [processContent_agent_name, hacc]
      simp only [if_true]
      cases hn : c.name with
      | none => rfl
      | some m =>
          have hm := h c (List.mem_cons_self _ _) m hn
          subst hm
          rfl

theorem itemLogLines_eq_nil_of_no_calls {items : List ContentItem}
    (h : items.any ContentItem.isCallRelated = false) :
    itemLogLines items = [] := by
  induction items with
  | nil => rfl
  | cons it rest ih =>
      cases it with
      | FunctionCallContent n a => simp [ContentItem.isCallRelated] at h
      | FunctionResultContent n r => simp [ContentItem.isCallRelated] at h
      | OtherContent =>
          simp only [List.any_cons, ContentItem.isCallRelated,
            Bool.false_or] at h
          exact ih h

theorem turnLogLines_eq_nil_of_no_calls {contents : List StreamedContent}
    (h : ∀ c ∈ contents, c.items.any ContentItem.isCallRelated = false) :
    turnLogLines contents = [] := by
  induction contents with
  | nil => rfl
  | cons c rest ih =>
      simp only [turnLogLines,
        itemLogLines_eq_nil_of_no_calls (h c (List.mem_cons_self _ _)),
        List.nil_append]
      exact ih fun g hg => h g (List.mem_cons_of_mem _ hg)

theorem guardedTextConcat_eq_kept_of_no_calls {contents : List StreamedContent}
    (h : ∀ c ∈ contents, c.items.any ContentItem.isCallRelated = false) :
    guardedTextConcat contents = keptTextConcat contents := by
  induction contents with
  | nil => rfl
  | cons c rest ih =>
      simp only [guardedTextConcat, keptTextConcat, textGuard,
        h c (List.mem_cons_self _ _), Bool.not_false, Bool.and_true]
      rw [ih fun g hg => h g (List.mem_cons_of_mem _ hg)]

theorem isCallingLine_fmtCall (p : String × String) :
    isCallingLine (fmtCall p) = true := by
  apply decide_eq_true
  show (("Calling: " ++ p.1 ++ "(" ++ p.2 ++ ")").data.take 9) = "Calling: ".data
  simp only [String.data_append, List.append_assoc]
  rfl

theorem isCallingLine_result (r : String) :
    isCallingLine ("Result: " ++ r) = false := by
  apply decide_eq_false
  intro hcontra
  have h1 : (("Result: " ++ r).data.take 9).head? = some 'R' := by
    rw [String.data_append]
    rfl
  rw [hcontra] at h1
  exact absurd h1 (by decide)


theorem filter_isCallingLine_itemLogLines (items : List ContentItem) :
    (itemLogLines items).filter isCallingLine =
      (itemCalls items).map fmtCall := by
  induction items with
  | nil => rfl
  | cons it rest ih =>
      cases it with
      | FunctionCallContent n a =>
          simp [itemLogLines, itemCalls, List.filter_cons,
            isCallingLine_fmtCall, ih]
      | FunctionResultContent n r =>
          simp [itemLogLines, itemCalls, List.filter_cons,
            isCallingLine_result, ih]
      | OtherContent => simp [itemLogLines, itemCalls, ih]

theorem filter_isCallingLine_turnLogLines (contents : List StreamedContent) :
    (turnLogLines contents).filter isCallingLine =
      (turnCalls contents).map fmtCall := by
  induction contents with
  | nil => rfl
  | cons c rest ih =>
      simp [turnLogLines, turnCalls, List.filter_append,
        filter_isCallingLine_itemLogLines, ih]

theorem lookupLast_isSome_iff (l : List (String × String)) (n : String) :
    (lookupLast l n).isSome ↔ ∃ v, (n, v) ∈ l := by
  induction l with
  | nil => simp [lookupLast]
  | cons p rest ih =>
      obtain ⟨k, v⟩ := p
      cases hr : lookupLast rest n with
      | some w =>
          rw [hr] at ih
          simp only [lookupLast, hr]
          simp only [Option.isSome_some, true_iff] at ih ⊢
          obtain ⟨v', hv'⟩ := ih
          exact ⟨v', List.mem_cons_of_mem _ hv'⟩
      | none =>
          rw [hr] at ih
          simp only [lookupLast, hr]
          by_cases hnk : n = k
          · subst hnk
            simp
          · simp only [if_neg hnk, Option.isSome_none, Bool.false_eq_true,
              false_iff] at ih ⊢
            intro ⟨v', hv'⟩
            rcases List.mem_cons.mp hv' with heq | hmem
            · exact hnk (congrArg Prod.fst heq)
            · exact ih ⟨v', hmem⟩

theorem fmtCall_mem_itemLogLines {p : String × String}
    {items : List ContentItem} (h : p ∈ itemCalls items) :
    fmtCall p ∈ itemLogLines items := by
  induction items with
  | nil => simp [itemCalls] at h
  | cons it rest ih =>
      cases it with
      | FunctionCallContent n a =>
          rcases List.mem_cons.mp h with heq | hmem
          · subst heq; exact List.mem_cons_self _ _
          · exact List.mem_cons_of_mem _ (ih hmem)
      | FunctionResultContent n r =>
          exact List.mem_cons_of_mem _ (ih h)
      | OtherContent => exact ih h

theorem fmtCall_mem_turnLogLines {p : String × String}
    {contents : List StreamedContent} (h : p ∈ turnCalls contents) :
    fmtCall p ∈ turnLogLines contents := by
  induction contents with
  | nil => simp [turnCalls] at h
  | cons c rest ih =>
      rcases List.mem_append.mp h with hmem | hmem
      · exact List.mem_append_left _ (fmtCall_mem_itemLogLines hmem)
      · exact List.mem_append_right _ (ih hmem)

theorem aggregate_function_calls (contents : List StreamedContent) :
    (aggregate contents).function_calls = turnLogLines contents := by
  unfold aggregate
  rw [foldl_processContent_function_calls]
  rfl


theorem empty_string_append (s : String) : "" ++ s = s := by
  apply String.ext
  rw [String.data_append]
  rfl

/-- C4 counterexample -/
theorem text_concat_drops_whitespace :
    (∀ c ∈ ([⟨none, " ", []⟩] : List StreamedContent),
        c.items.any ContentItem.isCallRelated = false) ∧
    ¬ ((aggregate [⟨none, " ", []⟩]).full_response =
          textDeltaConcat [⟨none, " ", []⟩] ∧
        (aggregate [⟨none, " ", []⟩]).function_calls = []) := by
  refine ⟨by decide, fun hcl => ?_⟩
  have h1 := hcl.1
  have h2 : (aggregate [⟨none, " ", []⟩]).full_response = "" := rfl
  have h3 : textDeltaConcat [(⟨none, " ", []⟩ : StreamedContent)] = " " := rfl
  rw [h2, h3] at h1
  exact absurd h1 (by decide)

/-- C4 amended -/
theorem call_free_text_concat :
    ∀ contents : List StreamedContent,
      (∀ c ∈ contents, c.items.any ContentItem.isCallRelated = false) →
      (aggregate contents).full_response = keptTextConcat contents ∧
        (aggregate contents).function_calls = [] := by
  intro contents h
  constructor
  · unfold aggregate
    rw [foldl_processContent_full_response,
      guardedTextConcat_eq_kept_of_no_calls h]
    show "" ++ _ = _
    exact empty_string_append _
  · rw [aggregate_function_calls, turnLogLines_eq_nil_of_no_calls h]

theorem call_free_text_concat_witness :
    (aggregate [⟨some "A", "Hello ", [ContentItem.OtherContent]⟩,
        ⟨none, "world", []⟩]).full_response =
      keptTextConcat [⟨some "A", "Hello ", [ContentItem.OtherContent]⟩,
        ⟨none, "world", []⟩] ∧
    (aggregate [⟨some "A", "Hello ", [ContentItem.OtherContent]⟩,
        ⟨none, "world", []⟩]).function_calls = [] :=
  call_free_text_concat
    [⟨some "A", "Hello ", [ContentItem.OtherContent]⟩, ⟨none, "world", []⟩]
    (by decide)

/-- C5 -/
theorem calling_lines_match_requests :
    ∀ contents : List StreamedContent,
      (aggregate contents).function_calls.filter isCallingLine =
        (turnCalls contents).map fmtCall ∧
      ((aggregate contents).function_calls.filter isCallingLine).length =
        (turnCalls contents).length := by
  intro contents
  have h : (aggregate contents).function_calls.filter isCallingLine =
      (turnCalls contents).map fmtCall := by
    rw [aggregate_function_calls, filter_isCallingLine_turnLogLines]
  exact ⟨h, by rw [h, List.length_map]⟩

/-- C6 -/
theorem call_results_last_write_wins :
    ∀ (contents : List StreamedContent) (n : String),
      (aggregate contents).function_results n =
          lookupLast (turnResults contents) n ∧
        (((aggregate contents).function_results n).isSome ↔
          ∃ v, (n, v) ∈ turnResults contents) ∧
        (∀ p ∈ turnCalls contents,
          fmtCall p ∈ (aggregate contents).function_calls) := by
  intro contents n
  have heq : (aggregate contents).function_results n =
      lookupLast (turnResults contents) n := by
    unfold aggregate
    rw [foldl_processContent_function_results]
    cases lookupLast (turnResults contents) n <;> rfl
  refine ⟨heq, ?_, ?_⟩
  · rw [heq]
    exact lookupLast_isSome_iff _ n
  · intro p hp
    rw [aggregate_function_calls]
    exact fmtCall_mem_turnLogLines hp

theorem call_results_last_write_wins_witness :
    (aggregate [⟨none, "", [ContentItem.FunctionCallContent "f" "{}",
          ContentItem.FunctionResultContent "f" "1"]⟩,
        ⟨none, "", [ContentItem.FunctionResultContent "f" "2"]⟩]).function_results
        "f" =
      lookupLast (turnResults [⟨none, "", [ContentItem.FunctionCallContent "f" "{}",
          ContentItem.FunctionResultContent "f" "1"]⟩,
        ⟨none, "", [ContentItem.FunctionResultContent "f" "2"]⟩]) "f" ∧
    fmtCall ("f", "{}") ∈
      (aggregate [⟨none, "", [ContentItem.FunctionCallContent "f" "{}",
          ContentItem.FunctionResultContent "f" "1"]⟩,
        ⟨none, "", [ContentItem.FunctionResultContent "f" "2"]⟩]).function_calls :=
  ⟨(call_results_last_write_wins _ "f").1,
   (call_results_last_write_wins _ "f").2.2 ("f", "{}") (by decide)⟩

/-- C8 -/
theorem agent_name_first_identifying :
    ∀ (pre : List StreamedContent) (c : StreamedContent)
      (post : List StreamedContent) (n : String),
      (∀ g ∈ pre, ∀ m, g.name = some m → m = "") →
      c.name = some n → n ≠ "" →
      (aggregate (pre ++ c :: post)).agent_name = some n := by
  intro pre c post n hpre hc hn
  unfold aggregate
  rw [List.foldl_append, List.foldl_cons]
  have hfalsy : pyFalsy (pre.foldl processContent TurnAgg.init).agent_name
      = true :=
    foldl_processContent_agent_name_falsy pre TurnAgg.init rfl hpre
  have hset : (processContent (pre.foldl processContent TurnAgg.init)
      c).agent_name = some n := by
    rw [processContent_agent_name, hfalsy]
    simp [hc]
  rw [foldl_processContent_agent_name_stable post _ (by
    rw [hset]
    simp [pyFalsy, hn]), hset]

theorem agent_name_first_identifying_witness :
    (aggregate [⟨some "", "x", []⟩, ⟨some "TravelAgent", "Hi", []⟩,
        ⟨some "Impostor", "y", []⟩]).agent_name = some "TravelAgent" :=
  agent_name_first_identifying [⟨some "", "x", []⟩]
    ⟨some "TravelAgent", "Hi", []⟩ [⟨some "Impostor", "y", []⟩] "TravelAgent"
    (by
      intro g hg m hm
      rw [List.mem_singleton] at hg
      subst hg
      exact (Option.some_inj.mp hm).symm)
    rfl (by decide)

/-- C1 counterexample -/
theorem driver_no_assistant_append :
    ¬ ({ role := Role.assistant,
          content := (processUserInput [] "Plan me a day trip."
            (fun _ => [⟨some "TravelAgent", "Hi", []⟩])).2.full_response } ∈
        (processUserInput [] "Plan me a day trip."
          (fun _ => [⟨some "TravelAgent", "Hi", []⟩])).1) := by
  decide

/-- C1 amended -/
theorem driver_appends_only_user_turns :
    ∀ (stream : List Turn → List StreamedContent) (history : List Turn)
      (inputs : List String),
      (driverLoop stream history inputs).1 =
        history ++ inputs.map (fun u => { role := Role.user, content := u }) := by
  intro stream history inputs
  induction inputs generalizing history with
  | nil => simp [driverLoop]
  | cons u rest ih =>
      show (driverLoop stream
        (history ++ [{ role := Role.user, content := u }]) rest).1 = _
      rw [ih]
      simp

end TravelAgent
